import Mathlib

/-!
Shallow embedding of the row-streaming and type-metadata bridge
(`src/rust/src/row_set.rs`) of the csharp-driver repository.

The external pager (`QueryPager` from the scylla crate) is modelled as the
sequence of outcomes its `next_column_iterator` will yield: each element is
either a fetch error or a row, and a row is the sequence of outcomes its
column iterator will yield.  Foreign exception values are kept abstract via a
type parameter `ε`; fetch errors via a type parameter `φ`.  Callbacks into the
host are modelled as functions returning `FfiException ε`, and every FFI entry
point additionally returns the ordered trace of callback invocations it made,
so that claims about which callbacks run (and in what order) are statable.
Panics of the type-tree accessors are modelled as `Option.none`.
-/

namespace RowSetModel

/-- Mirrors scylla's `NativeType` enum (the variants matched in
`column_type_to_code`); `OtherNative` stands for the non-exhaustive
remainder matched by the `_ => 0x00` arm. -/
inductive NativeType where
  | Ascii | BigInt | Blob | Boolean | Counter | Decimal | Double | Float
  | Int | Text | Timestamp | Uuid | Varint | Timeuuid | Inet | Date
  | Time | SmallInt | TinyInt | Duration
  | OtherNative
deriving DecidableEq, Repr

mutual

/-- Mirrors scylla's `CollectionType`; `OtherCollection` stands for the
non-exhaustive remainder matched by `_ => 0x00`. -/
inductive CollectionType where
  | List (inner : ColumnType)
  | Map (key : ColumnType) (value : ColumnType)
  | Set (inner : ColumnType)
  | OtherCollection

/-- Mirrors scylla's `ColumnType`.  A `UserDefinedType` carries its
definition's `name` and `field_types` (declaration order); `OtherType`
stands for the non-exhaustive remainder matched by `_ => 0x00`. -/
inductive ColumnType where
  | Native (nt : NativeType)
  | Collection (frozen : Bool) (typ : CollectionType)
  | Vector (inner : ColumnType) (dimensions : Nat)
  | UserDefinedType (frozen : Bool) (name : String)
      (field_types : List (String × ColumnType))
  | Tuple (fields : List ColumnType)
  | OtherType

end

/-- Embedding of `column_type_to_code` (row_set.rs, lines 463-499). -/
def column_type_to_code (typ : ColumnType) : Nat :=
  match typ with
  | ColumnType.Native nt =>
    match nt with
    | NativeType.Ascii => 0x01
    | NativeType.BigInt => 0x02
    | NativeType.Blob => 0x03
    | NativeType.Boolean => 0x04
    | NativeType.Counter => 0x05
    | NativeType.Decimal => 0x06
    | NativeType.Double => 0x07
    | NativeType.Float => 0x08
    | NativeType.Int => 0x09
    | NativeType.Text => 0x0A
    | NativeType.Timestamp => 0x0B
    | NativeType.Uuid => 0x0C
    | NativeType.Varint => 0x0E
    | NativeType.Timeuuid => 0x0F
    | NativeType.Inet => 0x10
    | NativeType.Date => 0x11
    | NativeType.Time => 0x12
    | NativeType.SmallInt => 0x13
    | NativeType.TinyInt => 0x14
    | NativeType.Duration => 0x15
    | NativeType.OtherNative => 0x00
  | ColumnType.Collection _ typ =>
    match typ with
    | CollectionType.List _ => 0x20
    | CollectionType.Map _ _ => 0x21
    | CollectionType.Set _ => 0x22
    | CollectionType.OtherCollection => 0x00
  | ColumnType.Vector _ _ => 0x20
  | ColumnType.UserDefinedType _ _ _ => 0x30
  | ColumnType.Tuple _ => 0x31
  | ColumnType.OtherType => 0x00

/-- Embedding of `row_set_type_info_get_code` (row_set.rs, lines 262-270):
a null handle panics (modelled as `none`), otherwise the node's code. -/
def row_set_type_info_get_code (type_info_handle : Option ColumnType) :
    Option Nat :=
  match type_info_handle with
  | none => none
  | some type_info => some (column_type_to_code type_info)

/-- The code a `ColumnType` node should receive according to the spec's
type-code table (spec.md §6), written from the spec's words: this is the
spec side of the refinement claim C1, to be compared with
`column_type_to_code`. -/
def spec_table_code (typ : ColumnType) : Nat :=
  match typ with
  | ColumnType.Native nt =>
    match nt with
    | NativeType.Ascii => 0x01
    | NativeType.BigInt => 0x02
    | NativeType.Blob => 0x03
    | NativeType.Boolean => 0x04
    | NativeType.Counter => 0x05
    | NativeType.Decimal => 0x06
    | NativeType.Double => 0x07
    | NativeType.Float => 0x08
    | NativeType.Int => 0x09
    | NativeType.Text => 0x0A
    | NativeType.Timestamp => 0x0B
    | NativeType.Uuid => 0x0C
    | NativeType.Varint => 0x0E
    | NativeType.Timeuuid => 0x0F
    | NativeType.Inet => 0x10
    | NativeType.Date => 0x11
    | NativeType.Time => 0x12
    | NativeType.SmallInt => 0x13
    | NativeType.TinyInt => 0x14
    | NativeType.Duration => 0x15
    | NativeType.OtherNative => 0x00
  | ColumnType.Collection _ typ =>
    match typ with
    | CollectionType.List _ => 0x20
    | CollectionType.Map _ _ => 0x21
    | CollectionType.Set _ => 0x22
    | CollectionType.OtherCollection => 0x00
  | ColumnType.Vector _ _ => 0x20
  | ColumnType.UserDefinedType _ _ _ => 0x30
  | ColumnType.Tuple _ => 0x31
  | ColumnType.OtherType => 0x00

/-- The closed set of codes the spec's table allows. -/
def allowed_codes : List Nat :=
  [0x00, 0x01, 0x02, 0x03, 0x04, 0x05, 0x06, 0x07, 0x08, 0x09, 0x0A, 0x0B,
   0x0C, 0x0E, 0x0F, 0x10, 0x11, 0x12, 0x13, 0x14, 0x15,
   0x20, 0x21, 0x22, 0x30, 0x31]

/-- A raw column value as yielded by the row's column iterator:
`slice` is the frame slice, or `none` for a null value. -/
structure RawColumn where
  slice : Option (List Nat)
deriving DecidableEq, Repr

/-- The boundary result value: either no exception, or a foreign exception
value of the abstract type `ε` (the core never inspects it). -/
inductive FfiException (ε : Type) where
  | ok
  | exception (e : ε)
deriving DecidableEq, Repr

/-- The caller-supplied constructor table used to build foreign exception
values: `construct_from_rust` from a message string (the
`rust_exception_constructor` path), `construct_from_error` from a driver
error (the `FfiException::from_error` path). -/
structure ExceptionConstructors (φ ε : Type) where
  construct_from_rust : String → ε
  construct_from_error : φ → ε

/-- Per-column static metadata, as read off a scylla `ColumnSpec`. -/
structure ColumnSpec where
  name : String
  ks_name : String
  table_name : String
  typ : ColumnType

/-- The external paged cursor, modelled by the outcomes it will yield:
`rows` lists, in order, what each successive `next_column_iterator` call
returns — a fetch error, or a row given as the list of outcomes of its
column iterator (each an error or a `RawColumn`).  An empty `rows` list is
the exhausted cursor, which yields nothing forever after. -/
structure QueryPager (φ : Type) where
  column_specs : List ColumnSpec
  rows : List (Except φ (List (Except φ RawColumn)))

/-- Embedding of the `RowSet` struct: an optional pager (the `Mutex` is
dropped — the model is the serialized behaviour the lock enforces). -/
structure RowSet (φ : Type) where
  pager : Option (QueryPager φ)

/-- Embedding of `row_set_get_columns_count` (row_set.rs, lines 53-60). -/
def row_set_get_columns_count (row_set : RowSet φ) : Nat :=
  match row_set.pager with
  | some p => p.column_specs.length
  | none => 0

/-- The exact message format of the fewer-columns error
(row_set.rs, lines 214-217). -/
def fewer_columns_message (value_index num_columns : Nat) : String :=
  "Row contains fewer columns (" ++ toString value_index ++ " of " ++
    toString num_columns ++ ") than metadata claims"

/-- Embedding of the `for value_index in 0..num_columns` loop of
`row_set_next_row` (row_set.rs, lines 208-244).  `remaining` is the number
of loop iterations left (`num_columns - value_index`); the column iterator
is consumed one element per iteration.  Returns the loop's outcome
(`Except.ok` = all columns processed, `Except.error e` = the exception to
propagate) together with the ordered trace of `deserialize_value` callback
invocations made, each as (value_index, frame slice). -/
def deserialize_columns (deserialize_value : Nat → List Nat → FfiException ε)
    (constructors : ExceptionConstructors φ ε) (num_columns : Nat) :
    Nat → Nat → List (Except φ RawColumn) →
      Except ε Unit × List (Nat × List Nat)
  | 0, _, _ => (Except.ok (), [])
  | remaining + 1, value_index, column_iterator =>
    match column_iterator with
    | [] =>
      (Except.error (constructors.construct_from_rust
        (fewer_columns_message value_index num_columns)), [])
    | column_res :: rest =>
      match column_res with
      | Except.error err =>
        (Except.error (constructors.construct_from_error err), [])
      | Except.ok raw_column =>
        match raw_column.slice with
        | none =>
          deserialize_columns deserialize_value constructors num_columns
            remaining (value_index + 1) rest
        | some frame_slice =>
          match deserialize_value value_index frame_slice with
          | FfiException.exception e =>
            (Except.error e, [(value_index, frame_slice)])
          | FfiException.ok =>
            let r := deserialize_columns deserialize_value constructors
              num_columns remaining (value_index + 1) rest
            (r.1, (value_index, frame_slice) :: r.2)

/-- What one `row_set_next_row` call produces: the returned
`FfiException`, the value written through `out_has_row`, the ordered trace
of `deserialize_value` invocations, and the row set's state afterwards. -/
structure NextRowOut (φ ε : Type) where
  result : FfiException ε
  has_row : Bool
  calls : List (Nat × List Nat)
  row_set : RowSet φ

/-- Embedding of `row_set_next_row` (row_set.rs, lines 166-260).
No pager: writes `has_row = false`, returns ok.  Otherwise the pager's next
outcome is consumed: exhausted cursor → ok with `has_row = false` (state
unchanged); fetch error → marshalled exception, `has_row = false`; a row →
the column loop runs, and `has_row` is true exactly when it finishes
without error. -/
def row_set_next_row (row_set : RowSet φ)
    (deserialize_value : Nat → List Nat → FfiException ε)
    (constructors : ExceptionConstructors φ ε) : NextRowOut φ ε :=
  match row_set.pager with
  | none => ⟨FfiException.ok, false, [], row_set⟩
  | some pager =>
    let num_columns := pager.column_specs.length
    match pager.rows with
    | [] => ⟨FfiException.ok, false, [], row_set⟩
    | next :: rest =>
      let pager' : QueryPager φ := { pager with rows := rest }
      match next with
      | Except.error err =>
        ⟨FfiException.exception (constructors.construct_from_error err),
          false, [], ⟨some pager'⟩⟩
      | Except.ok column_iterator =>
        let r := deserialize_columns deserialize_value constructors
          num_columns num_columns 0 column_iterator
        match r.1 with
        | Except.ok _ => ⟨FfiException.ok, true, r.2, ⟨some pager'⟩⟩
        | Except.error e =>
          ⟨FfiException.exception e, false, r.2, ⟨some pager'⟩⟩

/-- The result of the j-th `row_set_next_row` call (0-based) in a sequence
of successive calls starting from `row_set`, each call acting on the state
the previous one left behind. -/
def nth_next_row (deserialize_value : Nat → List Nat → FfiException ε)
    (constructors : ExceptionConstructors φ ε) :
    RowSet φ → Nat → NextRowOut φ ε
  | row_set, 0 => row_set_next_row row_set deserialize_value constructors
  | row_set, j + 1 =>
    nth_next_row deserialize_value constructors
      (row_set_next_row row_set deserialize_value constructors).row_set j

/-- The canonical deserializer-call trace of a fully processed row: one
entry per non-null column, in index order starting at `value_index`. -/
def non_null_calls : Nat → List RawColumn → List (Nat × List Nat)
  | _, [] => []
  | value_index, c :: rest =>
    match c.slice with
    | none => non_null_calls (value_index + 1) rest
    | some s => (value_index, s) :: non_null_calls (value_index + 1) rest

/-- The argument tuple of one `set_metadata` callback invocation in
`row_set_fill_columns_metadata`. -/
structure MetaCall where
  value_index : Nat
  name : String
  keyspace : String
  table : String
  type_code : Nat
  type_info_handle : Option ColumnType
  is_frozen : Nat

/-- The callback arguments built for column `i` with spec `spec`
(row_set.rs, lines 97-127): the type handle is the column's type node when
the code is at least 0x20, null otherwise; `is_frozen` is the frozen flag
of collection/UDT nodes, false otherwise, passed as a `u8`. -/
def mkMetaCall (i : Nat) (spec : ColumnSpec) : MetaCall :=
  let type_code := column_type_to_code spec.typ
  let type_info_handle : Option ColumnType :=
    if 0x20 ≤ type_code then some spec.typ else none
  let is_frozen : Bool :=
    match spec.typ with
    | ColumnType.Collection frozen _ => frozen
    | ColumnType.UserDefinedType frozen _ _ => frozen
    | _ => false
  ⟨i, spec.name, spec.ks_name, spec.table_name, type_code,
    type_info_handle, if is_frozen then 1 else 0⟩

/-- Embedding of the column loop of `row_set_fill_columns_metadata`
(row_set.rs, lines 96-134): invokes `set_metadata` per spec in order,
stopping at (and returning) the first exception.  Returns the result and
the ordered trace of callback invocations made. -/
def fill_columns_loop (set_metadata : MetaCall → FfiException ε) :
    Nat → List ColumnSpec → FfiException ε × List MetaCall
  | _, [] => (FfiException.ok, [])
  | i, spec :: rest =>
    let call := mkMetaCall i spec
    match set_metadata call with
    | FfiException.exception e => (FfiException.exception e, [call])
    | FfiException.ok =>
      let r := fill_columns_loop set_metadata (i + 1) rest
      (r.1, call :: r.2)

/-- Embedding of `row_set_fill_columns_metadata` (row_set.rs, lines
79-135): no pager → named error, no callback runs; otherwise the column
loop.  Returns the result and the callback-invocation trace (the only
writes into the caller's sink happen through the callback, so an empty
trace means nothing was written). -/
def row_set_fill_columns_metadata (row_set : RowSet φ)
    (set_metadata : MetaCall → FfiException ε)
    (constructors : ExceptionConstructors φ ε) :
    FfiException ε × List MetaCall :=
  match row_set.pager with
  | none =>
    (FfiException.exception (constructors.construct_from_rust
      "RowSet has no pager to get metadata from"), [])
  | some pager => fill_columns_loop set_metadata 0 pager.column_specs

/-- The full callback-invocation list for `specs` starting at index `i`:
what `fill_columns_loop` performs when no callback raises. -/
def meta_calls : Nat → List ColumnSpec → List MetaCall
  | _, [] => []
  | i, spec :: rest => mkMetaCall i spec :: meta_calls (i + 1) rest

/-- Embedding of `row_set_type_info_get_list_child` (row_set.rs, lines
274-298): `none` models the panic (null handle or non-List node). -/
def row_set_type_info_get_list_child (type_info_handle : Option ColumnType) :
    Option ColumnType :=
  match type_info_handle with
  | some (ColumnType.Collection _ (CollectionType.List inner)) => some inner
  | _ => none

/-- Embedding of `row_set_type_info_get_udt_field_count` (row_set.rs, lines
419-430): `none` models the panic (null handle or non-UDT node). -/
def row_set_type_info_get_udt_field_count
    (type_info_handle : Option ColumnType) : Option Nat :=
  match type_info_handle with
  | some (ColumnType.UserDefinedType _ _ field_types) =>
    some field_types.length
  | _ => none

/-- Embedding of `row_set_type_info_get_udt_field` (row_set.rs, lines
432-461): writes the indexed field's name and a handle to its type;
`none` models the panic (null handle, non-UDT node, or index out of
bounds). -/
def row_set_type_info_get_udt_field (type_info_handle : Option ColumnType)
    (index : Nat) : Option (String × ColumnType) :=
  match type_info_handle with
  | some (ColumnType.UserDefinedType _ _ field_types) =>
    match field_types.get? index with
    | some field => some field
    | none => none
  | _ => none

end RowSetModel

namespace RowSetModel

theorem non_null_calls_mem_bound (cols : List RawColumn) :
    ∀ (v : Nat) (p : Nat × List Nat), p ∈ non_null_calls v cols →
      v ≤ p.1 ∧ p.1 < v + cols.length := by
  induction cols with
  | nil => intro v p hp; simp [non_null_calls] at hp
  | cons c rest ih =>
    intro v p hp
    cases hs : c.slice with
    | none =>
      rw [non_null_calls, hs] at hp
      have := ih (v + 1) p hp
      constructor
      · omega
      · simp only [List.length_cons]; omega
    | some s =>
      rw [non_null_calls, hs] at hp
      rcases List.mem_cons.mp hp with h | h
      · subst h; simp
      · have := ih (v + 1) p h
        constructor
        · omega
        · simp only [List.length_cons]; omega

theorem non_null_calls_pairwise (cols : List RawColumn) :
    ∀ v : Nat,
      ((non_null_calls v cols).map Prod.fst).Pairwise (· < ·) := by
  induction cols with
  | nil => intro v; simp [non_null_calls]
  | cons c rest ih =>
    intro v
    cases hs : c.slice with
    | none => rw [non_null_calls, hs]; exact ih (v + 1)
    | some s =>
      rw [non_null_calls, hs]
      simp only [List.map_cons]
      refine List.pairwise_cons.mpr ⟨?_, ih (v + 1)⟩
      intro b hb
      rcases List.mem_map.mp hb with ⟨p, hp, hpb⟩
      have := (non_null_calls_mem_bound rest (v + 1) p hp).1
      omega

theorem non_null_calls_sound (cols : List RawColumn) :
    ∀ (v i : Nat) (s : List Nat), (i, s) ∈ non_null_calls v cols →
      ∃ j, i = v + j ∧ cols.get? j = some ⟨some s⟩ := by
  induction cols with
  | nil => intro v i s h; simp [non_null_calls] at h
  | cons c rest ih =>
    intro v i s h
    cases hs : c.slice with
    | none =>
      rw [non_null_calls, hs] at h
      rcases ih (v + 1) i s h with ⟨j, hj, hg⟩
      exact ⟨j + 1, by omega, by simpa using hg⟩
    | some t =>
      rw [non_null_calls, hs] at h
      rcases List.mem_cons.mp h with h | h
      · obtain ⟨rfl, rfl⟩ := Prod.mk.injEq .. ▸ h
        refine ⟨0, by omega, ?_⟩
        cases c
        simp_all
      · rcases ih (v + 1) i s h with ⟨j, hj, hg⟩
        exact ⟨j + 1, by omega, by simpa using hg⟩

theorem non_null_calls_complete (cols : List RawColumn) :
    ∀ (v j : Nat) (s : List Nat), cols.get? j = some ⟨some s⟩ →
      (v + j, s) ∈ non_null_calls v cols := by
  induction cols with
  | nil => intro v j s h; simp at h
  | cons c rest ih =>
    intro v j s h
    cases j with
    | zero =>
      simp only [List.get?] at h
      obtain rfl : c = ⟨some s⟩ := by injection h
      rw [non_null_calls]
      simp
    | succ j =>
      simp only [List.get?] at h
      have hmem := ih (v + 1) j s h
      cases hs : c.slice with
      | none =>
        rw [non_null_calls, hs]
        have : v + (j + 1) = v + 1 + j := by omega
        rw [this]; exact hmem
      | some t =>
        rw [non_null_calls, hs]
        have : v + (j + 1) = v + 1 + j := by omega
        rw [this]; exact List.mem_cons_of_mem _ hmem

/-- C2: a cursor-less RowSet reports zero columns, and every one of
arbitrarily many successive `row_set_next_row` calls returns success with
`has_row = false`, an empty callback trace, and the unchanged cursor-less
state: the state is terminal and the calls are idempotent, and no error is
ever produced. -/
theorem c2_no_pager_terminal {φ ε : Type}
    (deserialize_value : Nat → List Nat → FfiException ε)
    (constructors : ExceptionConstructors φ ε) :
    row_set_get_columns_count (⟨none⟩ : RowSet φ) = 0 ∧
    ∀ n : Nat,
      nth_next_row deserialize_value constructors (⟨none⟩ : RowSet φ) n =
        ⟨FfiException.ok, false, [], ⟨none⟩⟩ := by
  constructor
  · rfl
  · intro n
    induction n with
    | zero => rfl
    | succ n ih =>
      rw [nth_next_row]
      exact ih

theorem deserialize_columns_all_ok {φ ε : Type}
    (deserialize_value : Nat → List Nat → FfiException ε)
    (constructors : ExceptionConstructors φ ε) (num_columns : Nat)
    (hok : ∀ i s, deserialize_value i s = FfiException.ok) :
    ∀ (remaining : Nat) (cols : List RawColumn) (value_index : Nat),
      remaining ≤ cols.length →
      deserialize_columns deserialize_value constructors num_columns
          remaining value_index (cols.map Except.ok) =
        (Except.ok (), non_null_calls value_index (cols.take remaining)) := by
  intro remaining
  induction remaining with
  | zero => intro cols value_index _; simp [deserialize_columns, non_null_calls]
  | succ remaining ih =>
    intro cols value_index hle
    match cols with
    | [] => simp at hle
    | c :: rest =>
      obtain ⟨sl⟩ := c
      simp only [List.length_cons, Nat.succ_le_succ_iff] at hle
      cases sl with
      | none =>
        simp only [List.map_cons, List.take_cons, deserialize_columns,
          non_null_calls]
        exact ih rest (value_index + 1) hle
      | some s =>
        simp only [List.map_cons, List.take_cons, deserialize_columns,
          non_null_calls, hok value_index s]
        rw [ih rest (value_index + 1) hle]

theorem deserialize_columns_shortfall {φ ε : Type}
    (deserialize_value : Nat → List Nat → FfiException ε)
    (constructors : ExceptionConstructors φ ε) (num_columns : Nat)
    (hok : ∀ i s, deserialize_value i s = FfiException.ok) :
    ∀ (cols : List RawColumn) (remaining value_index : Nat),
      cols.length < remaining →
      deserialize_columns deserialize_value constructors num_columns
          remaining value_index (cols.map Except.ok) =
        (Except.error (constructors.construct_from_rust
          (fewer_columns_message (value_index + cols.length) num_columns)),
         non_null_calls value_index cols) := by
  intro cols
  induction cols with
  | nil =>
    intro remaining value_index hlt
    match remaining with
    | r + 1 => simp [deserialize_columns, non_null_calls]
  | cons c rest ih =>
    intro remaining value_index hlt
    match remaining with
    | r + 1 =>
      obtain ⟨sl⟩ := c
      simp only [List.length_cons, Nat.succ_lt_succ_iff] at hlt
      have harith : value_index + 1 + rest.length =
          value_index + (rest.length + 1) := by omega
      cases sl with
      | none =>
        simp only [List.map_cons, deserialize_columns, non_null_calls]
        rw [ih r (value_index + 1) hlt, List.length_cons, harith]
      | some s =>
        simp only [List.map_cons, deserialize_columns, non_null_calls,
          hok value_index s]
        rw [ih r (value_index + 1) hlt, List.length_cons, harith]

theorem deserialize_columns_calls_sound {φ ε : Type}
    (deserialize_value : Nat → List Nat → FfiException ε)
    (constructors : ExceptionConstructors φ ε) (num_columns : Nat) :
    ∀ (remaining value_index : Nat) (iter : List (Except φ RawColumn))
      (i : Nat) (s : List Nat),
      (i, s) ∈ (deserialize_columns deserialize_value constructors num_columns
        remaining value_index iter).2 →
      ∃ j, i = value_index + j ∧ j < remaining ∧
        iter.get? j = some (Except.ok ⟨some s⟩) := by
  intro remaining
  induction remaining with
  | zero => intro value_index iter i s h; simp [deserialize_columns] at h
  | succ remaining ih =>
    intro value_index iter i s h
    match iter with
    | [] => simp [deserialize_columns] at h
    | Except.error err :: rest => simp [deserialize_columns] at h
    | Except.ok ⟨none⟩ :: rest =>
      simp only [deserialize_columns] at h
      rcases ih (value_index + 1) rest i s h with ⟨j, hj, hjr, hg⟩
      exact ⟨j + 1, by omega, by omega, by simpa using hg⟩
    | Except.ok ⟨some fs⟩ :: rest =>
      simp only [deserialize_columns] at h
      have head_case : (i, s) = (value_index, fs) →
          ∃ j, i = value_index + j ∧ j < remaining + 1 ∧
            (Except.ok (⟨some fs⟩ : RawColumn) :: rest).get? j =
              some (Except.ok ⟨some s⟩) := by
        intro he
        obtain ⟨rfl, rfl⟩ : i = value_index ∧ s = fs := by simpa using he
        exact ⟨0, by omega, by omega, rfl⟩
      cases hd : deserialize_value value_index fs with
      | exception e =>
        rw [hd] at h
        simp only [List.mem_singleton] at h
        exact head_case h
      | ok =>
        rw [hd] at h
        simp only [List.mem_cons] at h
        rcases h with h | h
        · exact head_case h
        · rcases ih (value_index + 1) rest i s h with ⟨j, hj, hjr, hg⟩
          exact ⟨j + 1, by omega, by omega, by simpa using hg⟩

theorem deserialize_columns_callback_exception {φ ε : Type}
    (deserialize_value : Nat → List Nat → FfiException ε)
    (constructors : ExceptionConstructors φ ε) (num_columns : Nat) :
    ∀ (cols : List RawColumn) (value_index q pi : Nat) (ps : List Nat)
      (e : ε),
      (non_null_calls value_index cols).get? q = some (pi, ps) →
      (∀ p ∈ (non_null_calls value_index cols).take q,
        deserialize_value p.1 p.2 = FfiException.ok) →
      deserialize_value pi ps = FfiException.exception e →
      deserialize_columns deserialize_value constructors num_columns
          cols.length value_index (cols.map Except.ok) =
        (Except.error e, (non_null_calls value_index cols).take (q + 1)) := by
  intro cols
  induction cols with
  | nil => intro value_index q pi ps e hq _ _; simp [non_null_calls] at hq
  | cons c rest ih =>
    intro value_index q pi ps e hq hpre hexc
    obtain ⟨sl⟩ := c
    cases sl with
    | none =>
      simp only [non_null_calls] at hq hpre ⊢
      simp only [List.length_cons, List.map_cons, deserialize_columns]
      exact ih (value_index + 1) q pi ps e hq hpre hexc
    | some fs =>
      simp only [non_null_calls] at hq hpre ⊢
      cases q with
      | zero =>
        simp only [List.get?] at hq
        obtain ⟨rfl, rfl⟩ : pi = value_index ∧ ps = fs := by
          have := hq
          injection this with h
          simpa using h.symm
        simp only [List.length_cons, List.map_cons, deserialize_columns, hexc]
        simp [List.take_succ_cons]
      | succ q =>
        have hhead : deserialize_value value_index fs = FfiException.ok := by
          have := hpre (value_index, fs)
            (by rw [List.take_succ_cons]; exact List.mem_cons_self _ _)
          simpa using this
        simp only [List.get?] at hq
        have hpre2 : ∀ p ∈ (non_null_calls (value_index + 1) rest).take q,
            deserialize_value p.1 p.2 = FfiException.ok := by
          intro p hp
          apply hpre
          rw [List.take_succ_cons]
          exact List.mem_cons_of_mem _ hp
        simp only [List.length_cons, List.map_cons, deserialize_columns, hhead]
        rw [ih (value_index + 1) q pi ps e hq hpre2 hexc]
        simp [List.take_succ_cons]

theorem row_set_next_row_no_more_rows {φ ε : Type}
    (specs : List ColumnSpec)
    (deserialize_value : Nat → List Nat → FfiException ε)
    (constructors : ExceptionConstructors φ ε) :
    row_set_next_row (⟨some ⟨specs, []⟩⟩ : RowSet φ) deserialize_value
        constructors =
      ⟨FfiException.ok, false, [], ⟨some ⟨specs, []⟩⟩⟩ := rfl

theorem row_set_next_row_step_ok {φ ε : Type}
    (specs : List ColumnSpec) (r : List RawColumn)
    (rest : List (Except φ (List (Except φ RawColumn))))
    (deserialize_value : Nat → List Nat → FfiException ε)
    (constructors : ExceptionConstructors φ ε)
    (hlen : r.length = specs.length)
    (hok : ∀ i s, deserialize_value i s = FfiException.ok) :
    row_set_next_row
        (⟨some ⟨specs, Except.ok (r.map Except.ok) :: rest⟩⟩ : RowSet φ)
        deserialize_value constructors =
      ⟨FfiException.ok, true, non_null_calls 0 r, ⟨some ⟨specs, rest⟩⟩⟩ := by
  have hle : specs.length ≤ r.length := le_of_eq hlen.symm
  simp only [row_set_next_row,
    deserialize_columns_all_ok deserialize_value constructors specs.length hok
      specs.length r 0 hle]
  rw [← hlen, List.take_length]

/-- The pager outcome list of a cursor that yields exactly the rows
`rows` (each fully materialized, with no fetch errors and no malformed
values) and is then exhausted. -/
def rows_ok (φ : Type) (rows : List (List RawColumn)) :
    List (Except φ (List (Except φ RawColumn))) :=
  rows.map (fun row => Except.ok (row.map Except.ok))

/-- C3: on a stream with N declared columns whose cursor yields the rows
`rows` and is then exhausted, the j-th `row_set_next_row` call reports
`has_row = true` with success exactly when `j < rows.length`, its
deserializer-callback trace is exactly one invocation per non-null column
of the j-th row in strictly increasing index order with all indices below
N, and every call from the `rows.length`-th on reports `has_row = false`
with success, no callback, and the exhausted state preserved — the
exhausted state never resets. -/
theorem c3_row_iteration {φ ε : Type}
    (specs : List ColumnSpec) (rows : List (List RawColumn))
    (deserialize_value : Nat → List Nat → FfiException ε)
    (constructors : ExceptionConstructors φ ε)
    (hw : ∀ r ∈ rows, r.length = specs.length)
    (hok : ∀ i s, deserialize_value i s = FfiException.ok) :
    ∀ (j : Nat) (out : NextRowOut φ ε),
      out = nth_next_row deserialize_value constructors
        ⟨some ⟨specs, rows_ok φ rows⟩⟩ j →
      (∀ r, rows.get? j = some r →
        out.has_row = true ∧ out.result = FfiException.ok ∧
        out.calls = non_null_calls 0 r ∧
        ((out.calls.map Prod.fst).Pairwise (· < ·)) ∧
        (∀ i s, (i, s) ∈ out.calls ↔ r.get? i = some ⟨some s⟩) ∧
        (∀ p ∈ out.calls, p.1 < specs.length)) ∧
      (rows.length ≤ j →
        out.has_row = false ∧ out.result = FfiException.ok ∧
        out.calls = [] ∧ out.row_set = ⟨some ⟨specs, []⟩⟩) := by
  intro j
  induction j generalizing rows with
  | zero =>
    intro out hout
    cases rows with
    | nil =>
      subst hout
      refine ⟨?_, ?_⟩
      · intro r hr; simp at hr
      · intro _
        exact ⟨rfl, rfl, rfl, rfl⟩
    | cons r rest =>
      subst hout
      have hlen : r.length = specs.length := hw r (List.mem_cons_self _ _)
      have hstep :
          nth_next_row deserialize_value constructors
            ⟨some ⟨specs,
              rows_ok φ (r :: rest)⟩⟩ 0 =
          ⟨FfiException.ok, true, non_null_calls 0 r,
            ⟨some ⟨specs,
              rows_ok φ rest⟩⟩⟩ :=
        row_set_next_row_step_ok specs r
          (rows_ok φ rest)
          deserialize_value constructors hlen hok
      rw [hstep]
      refine ⟨?_, ?_⟩
      · intro r' hr'
        obtain rfl : r = r' := by simpa using hr'
        refine ⟨rfl, rfl, rfl, non_null_calls_pairwise r 0, ?_, ?_⟩
        · intro i s
          constructor
          · intro hmem
            rcases non_null_calls_sound r 0 i s hmem with ⟨k, hk, hg⟩
            obtain rfl : i = k := by omega
            exact hg
          · intro hg
            have := non_null_calls_complete r 0 i s hg
            simpa using this
        · intro p hp
          have := (non_null_calls_mem_bound r 0 p hp).2
          omega
      · intro habs; simp at habs
  | succ j ih =>
    intro out hout
    cases rows with
    | nil =>
      have hout2 : out = nth_next_row deserialize_value constructors
          ⟨some ⟨specs,
            rows_ok φ []⟩⟩ j := hout
      rcases ih [] (by simp) out hout2 with ⟨_, h2⟩
      refine ⟨?_, fun _ => h2 (Nat.zero_le j)⟩
      intro r hr; simp at hr
    | cons r rest =>
      have hlen : r.length = specs.length := hw r (List.mem_cons_self _ _)
      have hstep :
          row_set_next_row
            (⟨some ⟨specs,
              rows_ok φ (r :: rest)⟩⟩ :
                RowSet φ)
            deserialize_value constructors =
          ⟨FfiException.ok, true, non_null_calls 0 r,
            ⟨some ⟨specs,
              rows_ok φ rest⟩⟩⟩ :=
        row_set_next_row_step_ok specs r
          (rows_ok φ rest)
          deserialize_value constructors hlen hok
      have hout2 : out = nth_next_row deserialize_value constructors
          ⟨some ⟨specs,
            rows_ok φ rest⟩⟩ j := by
        rw [hout, nth_next_row, hstep]
      rcases ih rest (fun r2 hr2 => hw r2 (List.mem_cons_of_mem _ hr2))
        out hout2 with ⟨h1, h2⟩
      refine ⟨?_, ?_⟩
      · intro r' hr'
        exact h1 r' (by simpa using hr')
      · intro hle
        apply h2
        simp only [List.length_cons] at hle
        omega

/-- C4: when the row's column iterator yields only `m` raw values but the
metadata declares more columns, `row_set_next_row` returns the named error
built from the message carrying both counts, reports `has_row = false`,
and never invokes the deserializer for an index at or beyond `m`. -/
theorem c4_fewer_columns {φ ε : Type}
    (specs : List ColumnSpec) (cols : List RawColumn)
    (rest : List (Except φ (List (Except φ RawColumn))))
    (deserialize_value : Nat → List Nat → FfiException ε)
    (constructors : ExceptionConstructors φ ε)
    (hm : cols.length < specs.length)
    (hok : ∀ i s, deserialize_value i s = FfiException.ok) :
    ∀ out : NextRowOut φ ε,
      out = row_set_next_row
        ⟨some ⟨specs, Except.ok (cols.map Except.ok) :: rest⟩⟩
        deserialize_value constructors →
      out.result = FfiException.exception (constructors.construct_from_rust
        (fewer_columns_message cols.length specs.length)) ∧
      out.has_row = false ∧
      (∀ p ∈ out.calls, p.1 < cols.length) := by
  intro out hout
  have hdc := deserialize_columns_shortfall deserialize_value constructors
    specs.length hok cols specs.length 0 hm
  rw [Nat.zero_add] at hdc
  subst hout
  simp only [row_set_next_row, hdc]
  refine ⟨trivial, trivial, ?_⟩
  intro p hp
  have := (non_null_calls_mem_bound cols 0 p hp).2
  omega

/-- C5: for a row obtained by `row_set_next_row`, the deserialization
callback is never invoked for an index whose raw value is null (the frame
slice is absent); and a well-formed row that is partly null still
completes with `has_row = true` when the deserializer succeeds. -/
theorem c5_null_skipped {φ ε : Type}
    (specs : List ColumnSpec) (cols : List RawColumn)
    (rest : List (Except φ (List (Except φ RawColumn))))
    (deserialize_value : Nat → List Nat → FfiException ε)
    (constructors : ExceptionConstructors φ ε) :
    ∀ out : NextRowOut φ ε,
      out = row_set_next_row
        ⟨some ⟨specs, Except.ok (cols.map Except.ok) :: rest⟩⟩
        deserialize_value constructors →
      (∀ i, cols.get? i = some ⟨none⟩ → ∀ s, (i, s) ∉ out.calls) ∧
      (cols.length = specs.length →
        (∀ i s, deserialize_value i s = FfiException.ok) →
        out.has_row = true) := by
  intro out hout
  have hcalls : out.calls =
      (deserialize_columns deserialize_value constructors specs.length
        specs.length 0 (cols.map Except.ok)).2 := by
    subst hout
    simp only [row_set_next_row]
    rcases deserialize_columns deserialize_value constructors specs.length
      specs.length 0 (cols.map Except.ok) with ⟨res, calls⟩
    cases res <;> rfl
  refine ⟨?_, ?_⟩
  · intro i hnull s hmem
    rw [hcalls] at hmem
    rcases deserialize_columns_calls_sound deserialize_value constructors
      specs.length specs.length 0 (cols.map Except.ok) i s hmem with
      ⟨j, hij, hjr, hg⟩
    obtain rfl : i = j := by omega
    rw [List.get?_map, hnull] at hg
    simp at hg
  · intro hlen hok
    subst hout
    rw [row_set_next_row_step_ok specs cols rest deserialize_value
      constructors hlen hok]

theorem fill_columns_loop_exception {ε : Type}
    (set_metadata : MetaCall → FfiException ε) :
    ∀ (specs : List ColumnSpec) (i q : Nat) (call : MetaCall) (e : ε),
      (meta_calls i specs).get? q = some call →
      (∀ c ∈ (meta_calls i specs).take q,
        set_metadata c = FfiException.ok) →
      set_metadata call = FfiException.exception e →
      fill_columns_loop set_metadata i specs =
        (FfiException.exception e, (meta_calls i specs).take (q + 1)) := by
  intro specs
  induction specs with
  | nil => intro i q call e hq _ _; simp [meta_calls] at hq
  | cons spec rest ih =>
    intro i q call e hq hpre hexc
    simp only [meta_calls] at hq hpre ⊢
    cases q with
    | zero =>
      simp only [List.get?] at hq
      obtain rfl : mkMetaCall i spec = call := by injection hq
      simp only [fill_columns_loop, hexc]
      simp [List.take_succ_cons]
    | succ q =>
      have hhead : set_metadata (mkMetaCall i spec) = FfiException.ok :=
        hpre _ (by rw [List.take_succ_cons]; exact List.mem_cons_self _ _)
      simp only [List.get?] at hq
      have hpre2 : ∀ c ∈ (meta_calls (i + 1) rest).take q,
          set_metadata c = FfiException.ok := by
        intro c hc
        apply hpre
        rw [List.take_succ_cons]
        exact List.mem_cons_of_mem _ hc
      simp only [fill_columns_loop, hhead]
      rw [ih (i + 1) q call e hq hpre2 hexc]
      simp [List.take_succ_cons]

theorem fill_columns_loop_all_ok {ε : Type}
    (set_metadata : MetaCall → FfiException ε)
    (hok : ∀ c, set_metadata c = FfiException.ok) :
    ∀ (specs : List ColumnSpec) (i : Nat),
      fill_columns_loop set_metadata i specs =
        (FfiException.ok, meta_calls i specs) := by
  intro specs
  induction specs with
  | nil => intro i; rfl
  | cons spec rest ih =>
    intro i
    simp only [fill_columns_loop, hok (mkMetaCall i spec), meta_calls]
    rw [ih (i + 1)]

theorem fill_columns_loop_calls_shape {ε : Type}
    (set_metadata : MetaCall → FfiException ε) :
    ∀ (specs : List ColumnSpec) (i : Nat) (call : MetaCall),
      call ∈ (fill_columns_loop set_metadata i specs).2 →
      ∃ j spec, specs.get? j = some spec ∧ call = mkMetaCall (i + j) spec := by
  intro specs
  induction specs with
  | nil => intro i call h; simp [fill_columns_loop] at h
  | cons spec rest ih =>
    intro i call h
    simp only [fill_columns_loop] at h
    cases hcb : set_metadata (mkMetaCall i spec) with
    | exception e =>
      simp only [hcb, List.mem_singleton] at h
      exact ⟨0, spec, rfl, by simpa using h⟩
    | ok =>
      simp only [hcb, List.mem_cons] at h
      rcases h with h | h
      · exact ⟨0, spec, rfl, by simpa using h⟩
      · rcases ih (i + 1) call h with ⟨j, spec2, hg, hc⟩
        refine ⟨j + 1, spec2, by simpa using hg, ?_⟩
        rw [hc]
        congr 1
        omega

theorem meta_calls_length :
    ∀ (specs : List ColumnSpec) (i : Nat),
      (meta_calls i specs).length = specs.length := by
  intro specs
  induction specs with
  | nil => intro i; rfl
  | cons spec rest ih =>
    intro i
    simp only [meta_calls, List.length_cons, ih (i + 1)]

theorem meta_calls_get :
    ∀ (specs : List ColumnSpec) (i j : Nat) (spec : ColumnSpec),
      specs.get? j = some spec →
      (meta_calls i specs).get? j = some (mkMetaCall (i + j) spec) := by
  intro specs
  induction specs with
  | nil => intro i j spec h; simp at h
  | cons s rest ih =>
    intro i j spec h
    cases j with
    | zero =>
      simp only [List.get?] at h ⊢
      injection h with h
      subst h
      simp [meta_calls]
    | succ j =>
      simp only [List.get?] at h
      simp only [meta_calls, List.get?]
      rw [ih (i + 1) j spec h]
      congr 2
      omega

/-- C6: a foreign exception returned by a caller-supplied callback stops
the operation at that invocation and is propagated back as the verbatim
exception value `e`: in `row_set_fill_columns_metadata`, if the metadata
setter succeeds on the first q invocations and raises `e` on the q-th
(0-based), the result is exactly `exception e` and the invocation trace
stops at that call; in `row_set_next_row`, if the deserializer succeeds on
the first q of the row's non-null-column invocations and raises `e` on the
q-th, the result is exactly `exception e`, `has_row` is false, and no
later column is passed to the deserializer. -/
theorem c6_callback_exception_short_circuits {φ ε : Type} :
    (∀ (specs : List ColumnSpec)
       (rows : List (Except φ (List (Except φ RawColumn))))
       (set_metadata : MetaCall → FfiException ε)
       (constructors : ExceptionConstructors φ ε)
       (q : Nat) (call : MetaCall) (e : ε),
      (meta_calls 0 specs).get? q = some call →
      (∀ c ∈ (meta_calls 0 specs).take q,
        set_metadata c = FfiException.ok) →
      set_metadata call = FfiException.exception e →
      row_set_fill_columns_metadata (⟨some ⟨specs, rows⟩⟩ : RowSet φ)
          set_metadata constructors =
        (FfiException.exception e, (meta_calls 0 specs).take (q + 1))) ∧
    (∀ (specs : List ColumnSpec) (cols : List RawColumn)
       (rest : List (Except φ (List (Except φ RawColumn))))
       (deserialize_value : Nat → List Nat → FfiException ε)
       (constructors : ExceptionConstructors φ ε)
       (q pi : Nat) (ps : List Nat) (e : ε),
      cols.length = specs.length →
      (non_null_calls 0 cols).get? q = some (pi, ps) →
      (∀ p ∈ (non_null_calls 0 cols).take q,
        deserialize_value p.1 p.2 = FfiException.ok) →
      deserialize_value pi ps = FfiException.exception e →
      ∀ out : NextRowOut φ ε,
        out = row_set_next_row
          ⟨some ⟨specs, Except.ok (cols.map Except.ok) :: rest⟩⟩
          deserialize_value constructors →
        out.result = FfiException.exception e ∧
        out.has_row = false ∧
        out.calls = (non_null_calls 0 cols).take (q + 1)) := by
  constructor
  · intro specs rows set_metadata constructors q call e hq hpre hexc
    exact fill_columns_loop_exception set_metadata specs 0 q call e hq
      hpre hexc
  · intro specs cols rest deserialize_value constructors q pi ps e hlen hq
      hpre hexc out hout
    have hdc := deserialize_columns_callback_exception deserialize_value
      constructors specs.length cols 0 q pi ps e hq hpre hexc
    rw [hlen] at hdc
    subst hout
    simp only [row_set_next_row, hdc]
    exact ⟨trivial, trivial, trivial⟩

theorem mkMetaCall_handle (i : Nat) (spec : ColumnSpec) :
    ((mkMetaCall i spec).type_info_handle = none ↔
      (mkMetaCall i spec).type_code < 0x20) ∧
    (∀ t : ColumnType, (mkMetaCall i spec).type_info_handle = some t →
      0x20 ≤ (mkMetaCall i spec).type_code ∧
      (mkMetaCall i spec).type_code = column_type_to_code t) := by
  by_cases h : 0x20 ≤ column_type_to_code spec.typ
  · constructor
    · simp only [mkMetaCall, if_pos h]
      constructor
      · intro habs; exact Option.noConfusion habs
      · intro hlt; omega
    · intro t ht
      simp only [mkMetaCall, if_pos h] at ht ⊢
      obtain rfl : spec.typ = t := by injection ht
      exact ⟨h, rfl⟩
  · constructor
    · simp only [mkMetaCall, if_neg h]
      constructor
      · intro _; omega
      · intro _; trivial
    · intro t ht
      simp only [mkMetaCall, if_neg h] at ht
      exact Option.noConfusion ht

/-- C7: every `set_metadata` invocation made by
`row_set_fill_columns_metadata` carries a null type handle exactly when
its type code is below 0x20 (the native-scalar and unknown codes), and a
non-null handle — pointing at a node whose code is the passed code —
exactly for codes 0x20 and above (collection, tuple, UDT). -/
theorem c7_handle_null_iff_scalar {φ ε : Type}
    (row_set : RowSet φ) (set_metadata : MetaCall → FfiException ε)
    (constructors : ExceptionConstructors φ ε) :
    ∀ call ∈ (row_set_fill_columns_metadata row_set set_metadata
        constructors).2,
      (call.type_info_handle = none ↔ call.type_code < 0x20) ∧
      (∀ t : ColumnType, call.type_info_handle = some t →
        0x20 ≤ call.type_code ∧
        call.type_code = column_type_to_code t) := by
  intro call hcall
  rcases hrs : row_set.pager with _ | pager
  · simp only [row_set_fill_columns_metadata, hrs] at hcall
    simp at hcall
  · simp only [row_set_fill_columns_metadata, hrs] at hcall
    rcases fill_columns_loop_calls_shape set_metadata pager.column_specs 0
      call hcall with ⟨j, spec, _, rfl⟩
    exact mkMetaCall_handle (0 + j) spec

/-- C8: `row_set_fill_columns_metadata` on a cursor-less stream returns
the named error and never invokes the metadata setter (so nothing is
written into the caller's sink); on a stream with a cursor and a setter
that raises no exception, the setter is invoked exactly once per
`ColumnSpec` in declaration order, the j-th invocation carrying index j
and that column's name, keyspace, table, type code, handle and frozen
flag. -/
theorem c8_fill_metadata {φ ε : Type} :
    (∀ (set_metadata : MetaCall → FfiException ε)
       (constructors : ExceptionConstructors φ ε),
      row_set_fill_columns_metadata (⟨none⟩ : RowSet φ) set_metadata
          constructors =
        (FfiException.exception (constructors.construct_from_rust
          "RowSet has no pager to get metadata from"), [])) ∧
    (∀ (specs : List ColumnSpec)
       (rows : List (Except φ (List (Except φ RawColumn))))
       (set_metadata : MetaCall → FfiException ε)
       (constructors : ExceptionConstructors φ ε),
      (∀ c, set_metadata c = FfiException.ok) →
      row_set_fill_columns_metadata (⟨some ⟨specs, rows⟩⟩ : RowSet φ)
          set_metadata constructors =
        (FfiException.ok, meta_calls 0 specs)) ∧
    (∀ specs : List ColumnSpec,
      (meta_calls 0 specs).length = specs.length) ∧
    (∀ (specs : List ColumnSpec) (j : Nat) (spec : ColumnSpec),
      specs.get? j = some spec →
      (meta_calls 0 specs).get? j = some (mkMetaCall j spec)) ∧
    (∀ (j : Nat) (spec : ColumnSpec),
      (mkMetaCall j spec).value_index = j ∧
      (mkMetaCall j spec).name = spec.name ∧
      (mkMetaCall j spec).keyspace = spec.ks_name ∧
      (mkMetaCall j spec).table = spec.table_name ∧
      (mkMetaCall j spec).type_code = column_type_to_code spec.typ) := by
  refine ⟨?_, ?_, ?_, ?_, ?_⟩
  · intro set_metadata constructors; rfl
  · intro specs rows set_metadata constructors hok
    exact fill_columns_loop_all_ok set_metadata hok specs 0
  · intro specs; exact meta_calls_length specs 0
  · intro specs j spec h
    have := meta_calls_get specs 0 j spec h
    rwa [Nat.zero_add] at this
  · intro j spec
    exact ⟨rfl, rfl, rfl, rfl, rfl⟩

/-- C9: on a non-null handle to a `UserDefinedType` node,
`row_set_type_info_get_udt_field_count` returns the number of fields and
`row_set_type_info_get_udt_field` returns the indexed (name, type) pair in
declaration order; an out-of-range index, a non-UDT node, or a null handle
is fatal (modelled as `none`) rather than a recoverable error. -/
theorem c9_udt_accessors :
    (∀ (frozen : Bool) (udt_name : String)
       (fts : List (String × ColumnType)),
      row_set_type_info_get_udt_field_count
          (some (ColumnType.UserDefinedType frozen udt_name fts)) =
        some fts.length ∧
      (∀ i : Nat,
        row_set_type_info_get_udt_field
            (some (ColumnType.UserDefinedType frozen udt_name fts)) i =
          fts.get? i) ∧
      (∀ i : Nat, fts.length ≤ i →
        row_set_type_info_get_udt_field
            (some (ColumnType.UserDefinedType frozen udt_name fts)) i =
          none)) ∧
    (∀ t : ColumnType,
      (∀ (frozen : Bool) (udt_name : String)
        (fts : List (String × ColumnType)),
        t ≠ ColumnType.UserDefinedType frozen udt_name fts) →
      row_set_type_info_get_udt_field_count (some t) = none ∧
      ∀ i : Nat, row_set_type_info_get_udt_field (some t) i = none) ∧
    (row_set_type_info_get_udt_field_count none = none ∧
      ∀ i : Nat, row_set_type_info_get_udt_field none i = none) := by
  refine ⟨?_, ?_, ?_⟩
  · intro frozen udt_name fts
    refine ⟨rfl, ?_, ?_⟩
    · intro i
      simp only [row_set_type_info_get_udt_field]
      cases h : fts.get? i with
      | none => rfl
      | some field => rfl
    · intro i hi
      have h : fts.get? i = none := List.get?_eq_none.mpr hi
      simp only [row_set_type_info_get_udt_field]
      rw [h]
  · intro t hne
    cases t with
    | Native nt => exact ⟨rfl, fun i => rfl⟩
    | Collection frozen typ => exact ⟨rfl, fun i => rfl⟩
    | Vector inner dims => exact ⟨rfl, fun i => rfl⟩
    | UserDefinedType frozen udt_name fts =>
      exact absurd rfl (hne frozen udt_name fts)
    | Tuple fields => exact ⟨rfl, fun i => rfl⟩
    | OtherType => exact ⟨rfl, fun i => rfl⟩
  · exact ⟨rfl, fun i => rfl⟩

/-- A vector column type as the driver reads it for a CQL vector column. -/
def vector_int_3 : ColumnType :=
  ColumnType.Vector (ColumnType.Native NativeType.Int) 3

/-- A column spec whose type is the vector node. -/
def vector_spec : ColumnSpec := ⟨"v", "ks", "t", vector_int_3⟩

/-- C10: the `Vector` node receives type code 0x20 (the list code) from
`column_type_to_code`, so `row_set_fill_columns_metadata` passes it to the
callback through a non-null type handle; yet
`row_set_type_info_get_list_child` on that very handle is fatal (panics,
modelled as `none`) because the node is not a List collection — a code of
0x20 does not make the list-child accessor safe. -/
theorem c10_vector_handle_unsafe_for_list_child :
    column_type_to_code vector_int_3 = 0x20 ∧
    (row_set_fill_columns_metadata
        (⟨some ⟨[vector_spec], []⟩⟩ : RowSet Nat)
        (fun _ => (FfiException.ok : FfiException String))
        ⟨fun s => s, fun _ => "driver error"⟩).2 =
      [⟨0, "v", "ks", "t", 0x20, some vector_int_3, 0⟩] ∧
    row_set_type_info_get_list_child (some vector_int_3) = none := by
  exact ⟨rfl, rfl, rfl⟩

/-- C1: `column_type_to_code` reproduces the spec's type-code table exactly on
every `ColumnType` node, `row_set_type_info_get_code` agrees on every non-null
handle, and no value outside the documented code set is ever returned. -/
theorem c1_type_code_table :
    (∀ t : ColumnType, column_type_to_code t = spec_table_code t) ∧
    (∀ t : ColumnType,
      row_set_type_info_get_code (some t) = some (column_type_to_code t)) ∧
    (∀ t : ColumnType, column_type_to_code t ∈ allowed_codes) := by
  refine ⟨?_, ?_, ?_⟩
  · intro t
    cases t with
    | Native nt => cases nt <;> rfl
    | Collection frozen typ => cases typ <;> rfl
    | Vector inner dims => rfl
    | UserDefinedType frozen name fts => rfl
    | Tuple fields => rfl
    | OtherType => rfl
  · intro t
    rfl
  · intro t
    cases t with
    | Native nt => cases nt <;> simp [column_type_to_code, allowed_codes]
    | Collection frozen typ => cases typ <;> simp [column_type_to_code, allowed_codes]
    | Vector inner dims => simp [column_type_to_code, allowed_codes]
    | UserDefinedType frozen name fts => simp [column_type_to_code, allowed_codes]
    | Tuple fields => simp [column_type_to_code, allowed_codes]
    | OtherType => simp [column_type_to_code, allowed_codes]

end RowSetModel

namespace RowSetModel

/-- Concrete exception constructors over `φ := Nat`, `ε := String`, used to
instantiate the parametric theorems on executable inputs. -/
def demo_constructors : ExceptionConstructors Nat String :=
  ⟨fun s => s, fun _ => "driver error"⟩

/-- A deserializer that always succeeds. -/
def demo_ok_deserializer : Nat → List Nat → FfiException String :=
  fun _ _ => FfiException.ok

/-- A deserializer that raises on column index 1 and succeeds elsewhere. -/
def demo_err_deserializer : Nat → List Nat → FfiException String :=
  fun i _ => if i = 1 then FfiException.exception "bad" else FfiException.ok

/-- A metadata setter that raises on column index 1, succeeds elsewhere. -/
def demo_meta_cb : MetaCall → FfiException String :=
  fun c => if c.value_index = 1 then FfiException.exception "boom"
    else FfiException.ok

/-- A metadata setter that always succeeds. -/
def demo_ok_meta_cb : MetaCall → FfiException String :=
  fun _ => FfiException.ok

/-- An int-typed column spec. -/
def int_spec (n : String) : ColumnSpec :=
  ⟨n, "ks", "t", ColumnType.Native NativeType.Int⟩

/-- Three int columns, as in the spec's three-column scenario. -/
def demo_specs : List ColumnSpec := [int_spec "a", int_spec "b", int_spec "c"]

/-- The spec scenario rows: ("a", 1, null) then ("b", 2, 5), as raw
values. -/
def demo_rows : List (List RawColumn) :=
  [[⟨some [97]⟩, ⟨some [1]⟩, ⟨none⟩],
   [⟨some [98]⟩, ⟨some [2]⟩, ⟨some [5]⟩]]

/-- The spec scenario UDT: fields [("x", int), ("y", text)]. -/
def udt_xy : ColumnType :=
  ColumnType.UserDefinedType false "point"
    [("x", ColumnType.Native NativeType.Int),
     ("y", ColumnType.Native NativeType.Text)]

/-- A column spec whose type is the demo UDT. -/
def udt_spec : ColumnSpec := ⟨"p", "ks", "t", udt_xy⟩

theorem c1_type_code_table_witness :
    column_type_to_code (ColumnType.Native NativeType.Decimal) =
      spec_table_code (ColumnType.Native NativeType.Decimal) ∧
    column_type_to_code (ColumnType.Native NativeType.Decimal) ∈
      allowed_codes :=
  ⟨c1_type_code_table.1 (ColumnType.Native NativeType.Decimal),
   c1_type_code_table.2.2 (ColumnType.Native NativeType.Decimal)⟩

theorem c2_no_pager_terminal_witness :
    row_set_get_columns_count (⟨none⟩ : RowSet Nat) = 0 ∧
    nth_next_row demo_ok_deserializer demo_constructors
        (⟨none⟩ : RowSet Nat) 5 =
      ⟨FfiException.ok, false, [], ⟨none⟩⟩ :=
  ⟨(c2_no_pager_terminal demo_ok_deserializer demo_constructors).1,
   (c2_no_pager_terminal demo_ok_deserializer demo_constructors).2 5⟩

theorem c3_row_iteration_witness :
    (nth_next_row demo_ok_deserializer demo_constructors
        ⟨some ⟨demo_specs, rows_ok Nat demo_rows⟩⟩ 0).calls =
      [(0, [97]), (1, [1])] ∧
    (nth_next_row demo_ok_deserializer demo_constructors
        ⟨some ⟨demo_specs, rows_ok Nat demo_rows⟩⟩ 2).has_row = false := by
  have h := c3_row_iteration demo_specs demo_rows demo_ok_deserializer
    demo_constructors (by decide) (fun i s => rfl)
  constructor
  · have h0 := (h 0 _ rfl).1 [⟨some [97]⟩, ⟨some [1]⟩, ⟨none⟩] rfl
    rw [h0.2.2.1]
    rfl
  · exact ((h 2 _ rfl).2 (by decide)).1

theorem c4_fewer_columns_witness :
    (row_set_next_row
        (⟨some ⟨[int_spec "a", int_spec "b"],
          Except.ok (([⟨some [7]⟩] : List RawColumn).map Except.ok) ::
            []⟩⟩ : RowSet Nat)
        demo_ok_deserializer demo_constructors).result =
      FfiException.exception
        "Row contains fewer columns (1 of 2) than metadata claims" := by
  have h := c4_fewer_columns [int_spec "a", int_spec "b"] [⟨some [7]⟩] []
    demo_ok_deserializer demo_constructors (by decide) (fun i s => rfl)
    _ rfl
  rw [h.1]
  rfl

theorem c5_null_skipped_witness :
    ((2, ([5] : List Nat)) ∉
      (row_set_next_row
        (⟨some ⟨demo_specs,
          Except.ok (([⟨some [97]⟩, ⟨some [1]⟩, ⟨none⟩] :
            List RawColumn).map Except.ok) :: []⟩⟩ : RowSet Nat)
        demo_ok_deserializer demo_constructors).calls) ∧
    (row_set_next_row
        (⟨some ⟨demo_specs,
          Except.ok (([⟨some [97]⟩, ⟨some [1]⟩, ⟨none⟩] :
            List RawColumn).map Except.ok) :: []⟩⟩ : RowSet Nat)
        demo_ok_deserializer demo_constructors).has_row = true := by
  have h := c5_null_skipped demo_specs [⟨some [97]⟩, ⟨some [1]⟩, ⟨none⟩] []
    demo_ok_deserializer demo_constructors _ rfl
  exact ⟨h.1 2 rfl [5], h.2 rfl (fun i s => rfl)⟩

theorem c6_callback_exception_short_circuits_witness :
    (row_set_fill_columns_metadata
        (⟨some ⟨demo_specs, []⟩⟩ : RowSet Nat) demo_meta_cb
        demo_constructors).1 = FfiException.exception "boom" ∧
    (row_set_next_row
        (⟨some ⟨demo_specs,
          Except.ok (([⟨some [97]⟩, ⟨some [1]⟩, ⟨none⟩] :
            List RawColumn).map Except.ok) :: []⟩⟩ : RowSet Nat)
        demo_err_deserializer demo_constructors).result =
      FfiException.exception "bad" := by
  constructor
  · have h := c6_callback_exception_short_circuits.1 demo_specs []
      demo_meta_cb demo_constructors 1 (mkMetaCall 1 (int_spec "b"))
      "boom" rfl (by decide) rfl
    rw [h]
  · have h := c6_callback_exception_short_circuits.2 demo_specs
      [⟨some [97]⟩, ⟨some [1]⟩, ⟨none⟩] [] demo_err_deserializer
      demo_constructors 1 1 [1] "bad" rfl rfl (by decide) rfl _ rfl
    exact h.1

theorem c7_handle_null_iff_scalar_witness :
    ((mkMetaCall 0 udt_spec).type_info_handle = none ↔
      (mkMetaCall 0 udt_spec).type_code < 0x20) ∧
    (mkMetaCall 0 udt_spec).type_info_handle = some udt_xy := by
  have h := c7_handle_null_iff_scalar
    (⟨some ⟨[udt_spec], []⟩⟩ : RowSet Nat) demo_ok_meta_cb
    demo_constructors (mkMetaCall 0 udt_spec)
    (by
      rw [show (row_set_fill_columns_metadata
        (⟨some ⟨[udt_spec], []⟩⟩ : RowSet Nat) demo_ok_meta_cb
        demo_constructors).2 = [mkMetaCall 0 udt_spec] from rfl]
      exact List.mem_singleton.mpr rfl)
  exact ⟨h.1, rfl⟩

theorem c8_fill_metadata_witness :
    row_set_fill_columns_metadata (⟨none⟩ : RowSet Nat) demo_ok_meta_cb
        demo_constructors =
      (FfiException.exception "RowSet has no pager to get metadata from",
        []) ∧
    row_set_fill_columns_metadata (⟨some ⟨demo_specs, []⟩⟩ : RowSet Nat)
        demo_ok_meta_cb demo_constructors =
      (FfiException.ok, meta_calls 0 demo_specs) :=
  ⟨c8_fill_metadata.1 demo_ok_meta_cb demo_constructors,
   c8_fill_metadata.2.1 demo_specs [] demo_ok_meta_cb demo_constructors
     (fun c => rfl)⟩

theorem c9_udt_accessors_witness :
    row_set_type_info_get_udt_field_count (some udt_xy) = some 2 ∧
    row_set_type_info_get_udt_field (some udt_xy) 0 =
      some ("x", ColumnType.Native NativeType.Int) ∧
    row_set_type_info_get_udt_field (some udt_xy) 1 =
      some ("y", ColumnType.Native NativeType.Text) ∧
    row_set_type_info_get_udt_field (some udt_xy) 2 = none ∧
    row_set_type_info_get_udt_field_count
      (some (ColumnType.Native NativeType.Int)) = none := by
  obtain ⟨h1, h2, h3⟩ := c9_udt_accessors
  refine ⟨?_, ?_, ?_, ?_, ?_⟩
  · exact (h1 false "point"
      [("x", ColumnType.Native NativeType.Int),
       ("y", ColumnType.Native NativeType.Text)]).1
  · exact ((h1 false "point"
      [("x", ColumnType.Native NativeType.Int),
       ("y", ColumnType.Native NativeType.Text)]).2.1 0).trans rfl
  · exact ((h1 false "point"
      [("x", ColumnType.Native NativeType.Int),
       ("y", ColumnType.Native NativeType.Text)]).2.1 1).trans rfl
  · exact (h1 false "point"
      [("x", ColumnType.Native NativeType.Int),
       ("y", ColumnType.Native NativeType.Text)]).2.2 2 (by decide)
  · exact (h2 (ColumnType.Native NativeType.Int)
      (fun frozen udt_name fts h => ColumnType.noConfusion h)).1

end RowSetModel
